import Mathlib

/-!
# Verification of the `lofi_maker` DSP effects pipeline

Shallow embedding of `src/app/lofi_maker.py` (class `LofiMaker`).

Conventions of the embedding:

* A `pydub.AudioSegment` is modelled by `AudioSeg`: a channel count, a frame
  rate and the flat interleaved list of integer PCM samples (what
  `get_array_of_samples` returns).  `_spawn(samples.tobytes())` keeps channel
  count and frame rate, so each transform returns a record update of `AudioSeg`.
* Floating point intermediates (`astype(np.float32)` etc.) are modelled by
  exact rational arithmetic `ℚ`; `ℚ` has no NaN, so an IEEE division `0/0`
  (the unguarded peak normalisation on a silent buffer, which in numpy emits a
  warning and fills the array with NaN) is reported as the error value
  `AudioError.nonFiniteSamples`.
* Python `int(x)` and `numpy.astype(np.int16)` truncate toward zero: `itrunc`.
* Python `x % y` (for `y ≠ 0`) is floor-based: `qmod`.
* `np.sin` is an external numerical routine; it enters the embedding as an
  explicit function parameter `sin2pi : ℚ → ℚ`, standing for `x ↦ sin (2·π·x)`,
  so that `np.sin(2 * np.pi * t / cycle)` is rendered `sin2pi (t / cycle)`.
* Transforms that can raise a Python exception return `Res`
  (`ok` a buffer, or `err` an error of the spec's taxonomy).
-/

/-- PCM sample buffer, mirroring the `pydub.AudioSegment` state that the
transforms in `lofi_maker.py` read and write: `channels`, `frame_rate`, and
the flat interleaved integer samples of `get_array_of_samples()`. -/
structure AudioSeg where
  channels : ℕ
  frameRate : ℕ
  samples : List ℤ
deriving DecidableEq, Repr

/-- Error taxonomy of the spec (§7).  `invalidParameter` and
`unsupportedChannelLayout` are the spec's names; `lofi_maker.py` raises a plain
`ValueError` for the mono-input check of the two pan transforms, which is the
spec's `UnsupportedChannelLayout`.  `nonFiniteSamples` records the degenerate
peak-normalisation `0/0` (numpy produces NaN samples; `ℚ` has none, so the
embedding reports the event as an error value).  `libraryError` records a crash
inside an external collaborator (numpy broadcast error when the delay is zero
samples, or pydub/audioop resampling with a non-positive rate). -/
inductive AudioError where
  | invalidParameter
  | unsupportedChannelLayout
  | nonFiniteSamples
  | libraryError
deriving DecidableEq, Repr

/-- Result of one transform: a new buffer, or a raised error. -/
inductive Res where
  | ok (seg : AudioSeg)
  | err (e : AudioError)
deriving DecidableEq, Repr

/-- Sequencing with Python exception propagation: run `f` on the buffer if the
previous step succeeded, otherwise keep the error. -/
def Res.andThen (r : Res) (f : AudioSeg → Res) : Res :=
  match r with
  | .ok a => f a
  | .err e => .err e

/-- Python `int(x)` / numpy `astype` on a real value: truncation toward zero. -/
def itrunc (x : ℚ) : ℤ := if 0 ≤ x then ⌊x⌋ else -⌊-x⌋

/-- Python `%` on reals (`math.fmod`-free form): `a % b = a - b*⌊a/b⌋`, which
for `b > 0` is the value in `[0, b)` congruent to `a`. -/
def qmod (a b : ℚ) : ℚ := a - b * ⌊a / b⌋

/-- `numpy.reshape((-1, 2))`: group a flat interleaved stereo list into
(left, right) frames. -/
def pairUp {α : Type} : List α → List (α × α)
  | x :: y :: rest => (x, y) :: pairUp rest
  | _ => []

/-- `numpy.flatten()` on an `(n, 2)` array: interleave the frames back. -/
def flattenP {α : Type} : List (α × α) → List α
  | [] => []
  | (x, y) :: rest => x :: y :: flattenP rest

/-- `np.max(np.abs(...))`-style peak: fold of `max` of a nonnegative measure,
`0` on the empty list. -/
def peakBy {α : Type} (f : α → ℚ) (l : List α) : ℚ :=
  l.foldr (fun x m => max (f x) m) 0

/-- Peak absolute amplitude of a mono rational signal. -/
def peakQ (l : List ℚ) : ℚ := peakBy (fun v => |v|) l

/-- Peak absolute amplitude over both channels of a stereo frame list. -/
def peakSt (l : List (ℚ × ℚ)) : ℚ := peakBy (fun p => max |p.1| |p.2|) l

/-- Peak absolute amplitude of the integer samples of a buffer. -/
def peakZ (l : List ℤ) : ℚ := peakBy (fun (s : ℤ) => |(s : ℚ)|) l

/-- The samples of a successful result. -/
def Res.samplesOpt : Res → Option (List ℤ)
  | .ok a => some a.samples
  | .err _ => none

/-- The peak absolute sample amplitude of a successful result. -/
def Res.peakOpt : Res → Option ℚ
  | .ok a => some (peakZ a.samples)
  | .err _ => none

/-- A delayed, attenuated copy: the numpy idiom
`arr = np.zeros_like(xs); arr[shift:] = sc(xs[:-shift])` — `shift` leading
zeros followed by the scaled first `length - shift` entries of `xs`
(entirely zero when `shift ≥ length`). -/
def delayLine {α : Type} [AddCommMonoid α] (sc : α → α) (xs : List α) (shift : ℕ) : List α :=
  List.replicate (min shift xs.length) 0 ++ (xs.take (xs.length - shift)).map sc

/-- The echo accumulation loop of `reverb_audio`:
`output = np.copy(samples); for i in range(1, repeats+1): output += delayed_i`
where `delayed_i` is the original signal shifted by `d*i` and scaled by the
`i`-th attenuation `sc i` (in the source, `decay ** i`). -/
def echoMix {α : Type} [AddCommMonoid α] (xs : List α) (d reps : ℕ) (sc : ℕ → α → α) : List α :=
  (List.range reps).foldl
    (fun out i => List.zipWith (· + ·) out (delayLine (sc (i + 1)) xs (d * (i + 1)))) xs

/-- `LofiMaker.reverb_audio` (src/app/lofi_maker.py, lines 74–103), translated
from the source.

* `samples = np.array(self.audio.get_array_of_samples()).astype(np.float32)`:
  the integer samples as rationals.
* `delay_samples = int(sample_rate * self.reverb_delay_ms / 1000)`: natural
  division (all quantities nonnegative, `int` truncates toward zero).
* When `delay_samples * i = 0` for a loop iteration (only possible when
  `delay_samples = 0` and the loop runs, i.e. `repeats ≥ 1`), the numpy slice
  assignment `atten[0:] = samples[:-0]` assigns an empty slice to the whole
  array and raises a broadcast `ValueError`: `libraryError`.
* Stereo (`channels == 2`): reshape to frames, accumulate the echo loop,
  `output /= np.max(np.abs(output))` (NaN on a silent signal: the `m = 0`
  branch), flatten, `* 32767`, `astype(np.int16)`.
* Mono: same loop on the flat list, `samples = output / np.max(np.abs(output))`,
  `* 32767`, `astype(np.int16)`. -/
def reverb_audio (reverb_decay : ℚ) (reverb_delay_ms : ℕ) (reverb_repeats : ℕ)
    (a : AudioSeg) : Res :=
  let samples : List ℚ := a.samples.map (fun (s : ℤ) => (s : ℚ))
  let delay_samples : ℕ := a.frameRate * reverb_delay_ms / 1000
  if delay_samples = 0 ∧ 1 ≤ reverb_repeats then .err .libraryError
  else if a.channels = 2 then
    let stereo := pairUp samples
    let output := echoMix stereo delay_samples reverb_repeats
      (fun i p => (reverb_decay ^ i * p.1, reverb_decay ^ i * p.2))
    let m := peakSt output
    if m = 0 then .err .nonFiniteSamples
    else
      let normalized := output.map (fun p => (p.1 / m, p.2 / m))
      let flat := flattenP normalized
      .ok { a with samples := flat.map (fun v => itrunc (v * 32767)) }
  else
    let output := echoMix samples delay_samples reverb_repeats
      (fun i v => reverb_decay ^ i * v)
    let m := peakQ output
    if m = 0 then .err .nonFiniteSamples
    else
      let normalized := output.map (fun v => v / m)
      .ok { a with samples := normalized.map (fun v => itrunc (v * 32767)) }

/-- The per-frame gain computation of `surround_audio` (lines 116–123):
`t = (i / sample_rate) % cycle_duration`,
`pan = np.sin(2*np.pi*t / cycle_duration) * depth`,
`left_gain = (1+pan)/2`, `right_gain = (1-pan)/2`. -/
def surroundGains (sin2pi : ℚ → ℚ) (cycle_duration depth : ℚ) (sample_rate : ℕ)
    (i : ℕ) : ℚ × ℚ :=
  let t := qmod ((i : ℚ) / (sample_rate : ℚ)) cycle_duration
  let pan := sin2pi (t / cycle_duration) * depth
  ((1 + pan) / 2, (1 - pan) / 2)

/-- The per-frame loop of `surround_audio`:
`stereo[i, 0] *= left_gain; stereo[i, 1] *= right_gain` for every frame. -/
def surroundStage (sin2pi : ℚ → ℚ) (cycle_duration depth : ℚ) (sample_rate : ℕ)
    (st : List (ℚ × ℚ)) : List (ℚ × ℚ) :=
  (List.range st.length).map (fun i =>
    let g := surroundGains sin2pi cycle_duration depth sample_rate i
    let p := st.getD i 0
    (p.1 * g.1, p.2 * g.2))

/-- `LofiMaker.surround_audio` (lines 105–133), translated from the source.
`raise ValueError("Surround effect requires stereo audio.")` on non-stereo
input is the spec's `UnsupportedChannelLayout`.  After the pan loop:
`max_val = np.max(np.abs(stereo)); stereo = stereo / max_val * 32767` (NaN on a
silent panned signal: the `max_val = 0` branch), `astype(np.int16)`, flatten. -/
def surround_audio (sin2pi : ℚ → ℚ) (surround_cycle_duration surround_depth : ℚ)
    (a : AudioSeg) : Res :=
  if a.channels ≠ 2 then .err .unsupportedChannelLayout
  else
    let stereo := pairUp (a.samples.map (fun (s : ℤ) => (s : ℚ)))
    let panned := surroundStage sin2pi surround_cycle_duration surround_depth
      a.frameRate stereo
    let max_val := peakSt panned
    if max_val = 0 then .err .nonFiniteSamples
    else
      let scaled := panned.map (fun p => (p.1 / max_val * 32767, p.2 / max_val * 32767))
      .ok { a with samples := flattenP (scaled.map (fun p => (itrunc p.1, itrunc p.2))) }

/-- `LofiMaker.apply_nd_audio_effect` (lines 135–160), translated from the
source.  Note the differences from `surround_audio`, faithful to the code:
the samples are NOT cast to float (`np.array(...)` keeps the int16 dtype, so
each scaled sample is truncated back to an integer by the in-place
`stereo[i, 0] = int(...)` assignment), the pan has no depth factor, the cycle
duration is `self.dimension_cycle * (self.dimension_number / 8.0)`, and there
is no final peak renormalisation. -/
def apply_nd_audio_effect (sin2pi : ℚ → ℚ) (dimension_number : ℕ) (dimension_cycle : ℚ)
    (a : AudioSeg) : Res :=
  if a.channels ≠ 2 then .err .unsupportedChannelLayout
  else
    let stereo := pairUp a.samples
    let cycle_duration := dimension_cycle * ((dimension_number : ℚ) / 8)
    let panned := (List.range stereo.length).map (fun (i : ℕ) =>
      let t := qmod ((i : ℚ) / (a.frameRate : ℚ)) cycle_duration
      let pan := sin2pi (t / cycle_duration)
      let left_gain := (1 + pan) / 2
      let right_gain := (1 - pan) / 2
      let p := stereo.getD i 0
      (itrunc ((p.1 : ℚ) * left_gain), itrunc ((p.2 : ℚ) * right_gain)))
    .ok { a with samples := flattenP panned }

/-- `LofiMaker.normalize_audio` (lines 162–168).

Modelled from the spec: the two pydub operations this method calls,
`self.audio.max_dBFS` and `self.audio.apply_gain`, are external-collaborator
code (pydub/audioop) absent from this repository, so their composition is
modelled from §4.4 of the spec: compute the buffer's current peak level in
dBFS, `gainDelta = targetDBFS - currentPeakDBFS`, and apply the uniform
multiplicative gain `10 ^ (gainDelta / 20)` to every sample.  With a peak
amplitude `p` over the full-scale amplitude `32768`,
`currentPeakDBFS = 20·log10 (p / 32768)`, and the gain simplifies exactly:
`10 ^ ((target - 20·log10 (p / 32768)) / 20) = 10 ^ (target / 20) · 32768 / p`.
The transcendental `t ↦ 10 ^ (t / 20)` is not rational; it enters the model as
the explicit function parameter `amp`.  Stored samples are 16-bit integers, so
the gained sample is truncated toward zero on storage (audioop's float→int
conversion).  A completely silent buffer (`p = 0`) has an undefined
(negative-infinity) peak level; per the spec this degenerate case is a defined
no-op, returning the buffer unchanged. -/
def normalize_audio (amp : ℚ → ℚ) (target_dBFS : ℚ) (a : AudioSeg) : Res :=
  let p := peakZ a.samples
  if p = 0 then .ok a
  else
    let gain := amp target_dBFS * 32768 / p
    .ok { a with samples := a.samples.map (fun (s : ℤ) => itrunc ((s : ℚ) * gain)) }

/-- `LofiMaker.slow_audio` (lines 66–72).

Modelled from the spec: the resampling inside
`self.audio._spawn(raw, overrides={"frame_rate": int(frame_rate*speed)})
.set_frame_rate(frame_rate)` is external-collaborator code (pydub/audioop
`ratecv`), absent from this repository.  Following §4.1 of the spec:
reinterpret the existing sample data at rate `int(frameRate * slow_speed)`
(Python `int()` truncates), then resample that stream back to the original
rate, here with nearest-frame resampling; the duration scales by
`1 / slow_speed`.  A non-positive reinterpreted rate makes the external
resampler fail (`libraryError`); the repository code itself performs no
parameter validation. -/
def slow_audio (slow_speed : ℚ) (a : AudioSeg) : Res :=
  let newRate : ℤ := itrunc ((a.frameRate : ℚ) * slow_speed)
  if newRate ≤ 0 then .err .libraryError
  else
    let nr := newRate.toNat
    let ch := a.channels
    let nFrames := a.samples.length / ch
    let outFrames := nFrames * a.frameRate / nr
    .ok { a with samples :=
      (List.range (outFrames * ch)).map (fun (k : ℕ) =>
        a.samples.getD ((k / ch * nr / a.frameRate) * ch + k % ch) 0) }

/-- The constructor parameters of `LofiMaker` that configure the pipeline
(§6 of the spec). -/
structure Config where
  slow_down : Bool
  slow_speed : ℚ
  surround : Bool
  surround_cycle_duration : ℚ
  surround_depth : ℚ
  reverb : Bool
  reverb_decay : ℚ
  reverb_delay_ms : ℕ
  reverb_repeats : ℕ
  target_dBFS : ℚ
  dimension : Bool
  dimension_number : ℕ
  dimension_cycle : ℚ
deriving DecidableEq, Repr

/-- `LofiMaker.process` (lines 170–178), translated from the source:

    self.slow_audio() if self.slow_down else self.audio
    self.reverb_audio() if self.reverb else self.audio
    self.surround_audio() if self.surround else self.audio
    self.apply_nd_audio_effect() if self.dimension else self.audio
    return self.normalize_audio()

Each statement either runs a transform on the one buffer held in `self.audio`
(replacing it) or leaves the buffer as is; a raised exception aborts the
remaining stages (`Res.err` propagates). -/
def process (sin2pi amp : ℚ → ℚ) (cfg : Config) (a : AudioSeg) : Res :=
  match (if cfg.slow_down then slow_audio cfg.slow_speed a else .ok a) with
  | .err e => .err e
  | .ok a1 =>
    match (if cfg.reverb then
        reverb_audio cfg.reverb_decay cfg.reverb_delay_ms cfg.reverb_repeats a1
      else .ok a1) with
    | .err e => .err e
    | .ok a2 =>
      match (if cfg.surround then
          surround_audio sin2pi cfg.surround_cycle_duration cfg.surround_depth a2
        else .ok a2) with
      | .err e => .err e
      | .ok a3 =>
        match (if cfg.dimension then
            apply_nd_audio_effect sin2pi cfg.dimension_number cfg.dimension_cycle a3
          else .ok a3) with
        | .err e => .err e
        | .ok a4 => normalize_audio amp cfg.target_dBFS a4

/-- Claim-side description of one reverb delay line channel (spec §4.2, for
the refinement claim): position `n` of the echo-mixed signal holds the
original sample plus, for each repeat index `i` from `1` to `repeats`, the
original sample `delaySamples * i` positions earlier attenuated by
`decay ^ i` — the shifted copy contributes nothing in its first
`delaySamples * i` positions, which are silence. -/
def reverbContractChannel (decay : ℚ) (d reps : ℕ) (orig : List ℚ) : List ℚ :=
  (List.range orig.length).map (fun (n : ℕ) =>
    orig.getD n 0 +
      ∑ i ∈ Finset.range reps,
        (if d * (i + 1) ≤ n then decay ^ (i + 1) * orig.getD (n - d * (i + 1)) 0 else 0))

/-- The observed peak absolute amplitude of the echo-mixed (pre-normalisation)
stereo signal, per channel description: the larger of the two channel peaks. -/
def reverbMixedPeak (decay : ℚ) (delayMs reps : ℕ) (a : AudioSeg) : ℚ :=
  let d := a.frameRate * delayMs / 1000
  let fr := pairUp (a.samples.map (fun (s : ℤ) => (s : ℚ)))
  max (peakQ (reverbContractChannel decay d reps (fr.map Prod.fst)))
    (peakQ (reverbContractChannel decay d reps (fr.map Prod.snd)))

/-- Claim-side description of the whole Reverb transform (spec §4.2, for the
refinement claim): per-channel frame-aligned delay lines for stereo (a single
delay line for mono), followed by division of the whole output by its observed
peak absolute amplitude and rescaling to the maximum representable 16-bit
amplitude. -/
def reverbContract (decay : ℚ) (delayMs reps : ℕ) (a : AudioSeg) : AudioSeg :=
  let d := a.frameRate * delayMs / 1000
  if a.channels = 2 then
    let fr := pairUp (a.samples.map (fun (s : ℤ) => (s : ℚ)))
    let left := reverbContractChannel decay d reps (fr.map Prod.fst)
    let right := reverbContractChannel decay d reps (fr.map Prod.snd)
    let peak := reverbMixedPeak decay delayMs reps a
    { a with samples := (flattenP (left.zip right)).map (fun v => itrunc (v / peak * 32767)) }
  else
    let mixed := reverbContractChannel decay d reps (a.samples.map (fun (s : ℤ) => (s : ℚ)))
    { a with samples := mixed.map (fun v => itrunc (v / peakQ mixed * 32767)) }

/-- Claim-side description of the Dimension transform: the Surround panning
algorithm (the same per-frame gain computation `surroundGains`) with the pan
depth fixed at `1`, the cycle duration derived as
`dimension_cycle * (dimension_number / 8)`, each panned sample truncated to
its 16-bit integer storage, and no final peak renormalisation. -/
def dimensionContract (sin2pi : ℚ → ℚ) (dimension_number : ℕ) (dimension_cycle : ℚ)
    (a : AudioSeg) : AudioSeg :=
  let fr := pairUp a.samples
  let cycle := dimension_cycle * ((dimension_number : ℚ) / 8)
  { a with samples := flattenP ((List.range fr.length).map (fun (i : ℕ) =>
      let g := surroundGains sin2pi cycle 1 a.frameRate i
      let p := fr.getD i 0
      (itrunc ((p.1 : ℚ) * g.1), itrunc ((p.2 : ℚ) * g.2)))) }

/-- Spec-side description of one orchestrator stage (spec §4.5): a stage gated
by a boolean flag applies its transform when enabled and passes the buffer
through unchanged when disabled. -/
def gatedStage (enabled : Bool) (t : AudioSeg → Res) (a : AudioSeg) : Res :=
  if enabled then t a else .ok a

/-! ## List indexing helpers -/

theorem getD_map_of_lt {α β : Type} (f : α → β) (l : List α) (d : α) (d' : β) (n : ℕ)
    (h : n < l.length) : (l.map f).getD n d' = f (l.getD n d) := by
  induction l generalizing n with
  | nil => simp at h
  | cons x xs ih =>
    cases n with
    | zero => rfl
    | succ m => exact ih m (by simpa using h)

theorem getD_take_of_lt {α : Type} (l : List α) (d : α) (k n : ℕ) (h : n < k) :
    (l.take k).getD n d = l.getD n d := by
  induction l generalizing n k with
  | nil => simp
  | cons x xs ih =>
    cases k with
    | zero => omega
    | succ k' =>
      cases n with
      | zero => rfl
      | succ m => exact ih k' m (by omega)

theorem getD_replicate_of_lt {α : Type} (z d : α) (k n : ℕ) (h : n < k) :
    (List.replicate k z).getD n d = z := by
  induction k generalizing n with
  | zero => omega
  | succ k' ih =>
    cases n with
    | zero => rfl
    | succ m => exact ih m (by omega)

theorem getD_zipWith_of_lt {α β γ : Type} (f : α → β → γ) (l₁ : List α) (l₂ : List β)
    (d₁ : α) (d₂ : β) (d₃ : γ) (n : ℕ) (h₁ : n < l₁.length) (h₂ : n < l₂.length) :
    (List.zipWith f l₁ l₂).getD n d₃ = f (l₁.getD n d₁) (l₂.getD n d₂) := by
  induction l₁ generalizing l₂ n with
  | nil => simp at h₁
  | cons x xs ih =>
    cases l₂ with
    | nil => simp at h₂
    | cons y ys =>
      cases n with
      | zero => rfl
      | succ m => exact ih ys m (by simpa using h₁) (by simpa using h₂)

theorem getD_map_range {β : Type} (g : ℕ → β) (k n : ℕ) (d : β) (h : n < k) :
    ((List.range k).map g).getD n d = g n := by
  rw [List.getD_eq_getElem _ _ (by simpa using h)]
  simp

theorem mem_of_getD_lt {α : Type} (l : List α) (d : α) (n : ℕ) (h : n < l.length) :
    l.getD n d ∈ l := by
  rw [List.getD_eq_getElem _ _ h]
  exact l.getElem_mem h

/-! ## pairUp / flattenP lemmas -/

theorem pairUp_flattenP {α : Type} : ∀ (l : List (α × α)), pairUp (flattenP l) = l
  | [] => rfl
  | (x, y) :: rest => by rw [flattenP, pairUp, pairUp_flattenP rest]

theorem flattenP_pairUp {α : Type} :
    ∀ (l : List α), l.length % 2 = 0 → flattenP (pairUp l) = l
  | [], _ => rfl
  | [x], h => by simp at h
  | x :: y :: rest, h => by
    rw [pairUp, flattenP, flattenP_pairUp rest (by simp at h; omega)]

theorem flattenP_map {α β : Type} (f : α → β) :
    ∀ (l : List (α × α)),
      flattenP (l.map (fun p => (f p.1, f p.2))) = (flattenP l).map f
  | [] => rfl
  | (x, y) :: rest => by
    rw [List.map_cons, flattenP, flattenP, List.map_cons, List.map_cons,
      flattenP_map f rest]

theorem length_flattenP {α : Type} : ∀ (l : List (α × α)), (flattenP l).length = 2 * l.length
  | [] => rfl
  | (x, y) :: rest => by
    rw [flattenP]
    simp [length_flattenP rest]
    omega

theorem length_pairUp {α : Type} : ∀ (l : List α), (pairUp l).length = l.length / 2
  | [] => by simp [pairUp]
  | [x] => by simp [pairUp]
  | x :: y :: rest => by
    rw [pairUp]
    simp only [List.length_cons, length_pairUp rest]
    omega

theorem getD_pairUp {α : Type} :
    ∀ (l : List α) (d₁ d₂ : α) (n : ℕ), 2 * n + 1 < l.length →
      (pairUp l).getD n (d₁, d₂) = (l.getD (2 * n) d₁, l.getD (2 * n + 1) d₂)
  | [], _, _, _, h => by simp at h
  | [x], _, _, _, h => by simp at h
  | x :: y :: rest, d₁, d₂, n, h => by
    cases n with
    | zero => rfl
    | succ m =>
      have h2 : 2 * m + 1 < rest.length := by simp at h; omega
      have e1 : 2 * (m + 1) = 2 * m + 1 + 1 := by omega
      have e2 : 2 * (m + 1) + 1 = 2 * m + 1 + 1 + 1 := by omega
      rw [pairUp, List.getD_cons_succ, e1, List.getD_cons_succ,
        List.getD_cons_succ, List.getD_cons_succ, List.getD_cons_succ]
      exact getD_pairUp rest d₁ d₂ m h2

/-! ## Peak lemmas -/

theorem peakBy_nonneg {α : Type} (f : α → ℚ) (l : List α) : 0 ≤ peakBy f l := by
  induction l with
  | nil => exact le_refl 0
  | cons x xs ih => exact le_trans ih (le_max_right _ _)

theorem le_peakBy {α : Type} (f : α → ℚ) {l : List α} {x : α} (hx : x ∈ l) :
    f x ≤ peakBy f l := by
  induction l with
  | nil => simp at hx
  | cons y ys ih =>
    rcases List.mem_cons.mp hx with h | h
    · subst h; exact le_max_left _ _
    · exact le_trans (ih h) (le_max_right _ _)

theorem peakBy_le {α : Type} (f : α → ℚ) {l : List α} {m : ℚ} (h0 : 0 ≤ m)
    (h : ∀ x ∈ l, f x ≤ m) : peakBy f l ≤ m := by
  induction l with
  | nil => exact h0
  | cons y ys ih =>
    exact max_le (h y (List.mem_cons_self y ys)) (ih (fun x hx => h x (List.mem_cons_of_mem y hx)))

theorem exists_eq_peakBy {α : Type} (f : α → ℚ) {l : List α}
    (h : peakBy f l ≠ 0) : ∃ x ∈ l, f x = peakBy f l := by
  induction l with
  | nil => exact absurd rfl h
  | cons y ys ih =>
    rcases le_total (peakBy f ys) (f y) with hle | hle
    · exact ⟨y, List.mem_cons_self y ys, (max_eq_left hle).symm⟩
    · have hmax : peakBy f (y :: ys) = peakBy f ys := max_eq_right hle
      rcases ih (by rw [← hmax]; exact h) with ⟨x, hx, hfx⟩
      exact ⟨x, List.mem_cons_of_mem y hx, by rw [hfx, hmax]⟩

theorem peakBy_map {α β : Type} (f : β → ℚ) (g : α → β) (l : List α) :
    peakBy f (l.map g) = peakBy (fun x => f (g x)) l := by
  induction l with
  | nil => rfl
  | cons y ys ih => simp only [List.map_cons, peakBy, List.foldr_cons] at *; rw [ih]

theorem peakBy_flattenP {α : Type} (f : α → ℚ) :
    ∀ (l : List (α × α)),
      peakBy f (flattenP l) = peakBy (fun p => max (f p.1) (f p.2)) l
  | [] => rfl
  | (x, y) :: rest => by
    simp only [flattenP, peakBy, List.foldr_cons]
    have := peakBy_flattenP f rest
    simp only [peakBy] at this
    rw [this, max_assoc]

theorem peakBy_zip {α : Type} (f : α → ℚ) :
    ∀ (l₁ l₂ : List α), l₁.length = l₂.length →
      peakBy (fun p => max (f p.1) (f p.2)) (l₁.zip l₂) =
        max (peakBy f l₁) (peakBy f l₂)
  | [], [], _ => by simp [peakBy]
  | [], y :: ys, h => by simp at h
  | x :: xs, [], h => by simp at h
  | x :: xs, y :: ys, h => by
    simp only [List.zip_cons_cons, peakBy, List.foldr_cons]
    have := peakBy_zip f xs ys (by simpa using h)
    simp only [peakBy] at this
    rw [this, max_max_max_comm]

/-! ## delayLine / echoMix lemmas -/

theorem length_delayLine {α : Type} [AddCommMonoid α] (sc : α → α) (xs : List α)
    (shift : ℕ) : (delayLine sc xs shift).length = xs.length := by
  simp only [delayLine, List.length_append, List.length_replicate, List.length_map,
    List.length_take]
  omega

theorem getD_delayLine {α : Type} [AddCommMonoid α] (sc : α → α) (xs : List α)
    (shift n : ℕ) (h : n < xs.length) :
    (delayLine sc xs shift).getD n 0 =
      if shift ≤ n then sc (xs.getD (n - shift) 0) else 0 := by
  by_cases hs : shift ≤ n
  · rw [if_pos hs]
    have hmin : min shift xs.length = shift := by omega
    have hlen : (List.replicate (min shift xs.length) (0 : α)).length = shift := by
      rw [List.length_replicate, hmin]
    rw [delayLine, List.getD_append_right _ _ _ _ (by rw [hlen]; exact hs), hlen]
    have hn : n - shift < (xs.take (xs.length - shift)).length := by
      rw [List.length_take]; omega
    rw [getD_map_of_lt _ _ (0 : α) _ _ hn, getD_take_of_lt _ _ _ _ (by omega)]
  · rw [if_neg hs]
    have hlt : n < min shift xs.length := by omega
    rw [delayLine, List.getD_append _ _ _ _ (by simpa using hlt),
      getD_replicate_of_lt _ _ _ _ hlt]

theorem echoMix_succ {α : Type} [AddCommMonoid α] (xs : List α) (d reps : ℕ)
    (sc : ℕ → α → α) :
    echoMix xs d (reps + 1) sc =
      List.zipWith (· + ·) (echoMix xs d reps sc)
        (delayLine (sc (reps + 1)) xs (d * (reps + 1))) := by
  rw [echoMix, echoMix, List.range_succ, List.foldl_append, List.foldl_cons, List.foldl_nil]

theorem length_echoMix {α : Type} [AddCommMonoid α] (xs : List α) (d reps : ℕ)
    (sc : ℕ → α → α) : (echoMix xs d reps sc).length = xs.length := by
  induction reps with
  | zero => rfl
  | succ r ih =>
    rw [echoMix_succ, List.length_zipWith, ih, length_delayLine]
    omega

theorem getD_echoMix {α : Type} [AddCommMonoid α] (xs : List α) (d reps : ℕ)
    (sc : ℕ → α → α) (n : ℕ) (h : n < xs.length) :
    (echoMix xs d reps sc).getD n 0 =
      xs.getD n 0 +
        ∑ i ∈ Finset.range reps,
          (if d * (i + 1) ≤ n then sc (i + 1) (xs.getD (n - d * (i + 1)) 0) else 0) := by
  induction reps with
  | zero => simp [echoMix]
  | succ r ih =>
    rw [echoMix_succ,
      getD_zipWith_of_lt _ _ _ 0 0 0 n (by rw [length_echoMix]; exact h)
        (by rw [length_delayLine]; exact h),
      ih, getD_delayLine _ _ _ _ h, Finset.sum_range_succ, add_assoc]

/-! ## The echo loop computes the contract's per-channel delay lines -/

theorem length_reverbContractChannel (decay : ℚ) (d reps : ℕ) (orig : List ℚ) :
    (reverbContractChannel decay d reps orig).length = orig.length := by
  simp [reverbContractChannel]

theorem getD_reverbContractChannel (decay : ℚ) (d reps : ℕ) (orig : List ℚ) (n : ℕ)
    (h : n < orig.length) :
    (reverbContractChannel decay d reps orig).getD n 0 =
      orig.getD n 0 +
        ∑ i ∈ Finset.range reps,
          (if d * (i + 1) ≤ n then decay ^ (i + 1) * orig.getD (n - d * (i + 1)) 0 else 0) := by
  rw [reverbContractChannel, getD_map_range _ _ _ _ h]

theorem echoMix_eq_contractChannel (decay : ℚ) (d reps : ℕ) (orig : List ℚ) :
    echoMix orig d reps (fun i v => decay ^ i * v) =
      reverbContractChannel decay d reps orig := by
  apply List.ext_getElem
  · rw [length_echoMix, length_reverbContractChannel]
  · intro n h1 h2
    have hn : n < orig.length := by rwa [length_echoMix] at h1
    rw [← List.getD_eq_getElem _ (0 : ℚ) h1, ← List.getD_eq_getElem _ (0 : ℚ) h2,
      getD_echoMix _ _ _ _ _ hn, getD_reverbContractChannel _ _ _ _ _ hn]

theorem fst_finset_sum {ι : Type} (s : Finset ι) (f : ι → ℚ × ℚ) :
    (∑ i ∈ s, f i).1 = ∑ i ∈ s, (f i).1 :=
  map_sum (AddMonoidHom.fst ℚ ℚ) f s

theorem snd_finset_sum {ι : Type} (s : Finset ι) (f : ι → ℚ × ℚ) :
    (∑ i ∈ s, f i).2 = ∑ i ∈ s, (f i).2 :=
  map_sum (AddMonoidHom.snd ℚ ℚ) f s

theorem echoMixSt_eq_zip (decay : ℚ) (d reps : ℕ) (st : List (ℚ × ℚ)) :
    echoMix st d reps (fun i p => (decay ^ i * p.1, decay ^ i * p.2)) =
      (reverbContractChannel decay d reps (st.map Prod.fst)).zip
        (reverbContractChannel decay d reps (st.map Prod.snd)) := by
  apply List.ext_getElem
  · rw [length_echoMix, List.length_zip, length_reverbContractChannel,
      length_reverbContractChannel, List.length_map, List.length_map]
    omega
  · intro n h1 h2
    have hn : n < st.length := by rwa [length_echoMix] at h1
    have hL : n < (reverbContractChannel decay d reps (st.map Prod.fst)).length := by
      rw [length_reverbContractChannel, List.length_map]; exact hn
    have hR : n < (reverbContractChannel decay d reps (st.map Prod.snd)).length := by
      rw [length_reverbContractChannel, List.length_map]; exact hn
    rw [← List.getD_eq_getElem _ (0 : ℚ × ℚ) h1,
      ← List.getD_eq_getElem _ (0 : ℚ × ℚ) h2]
    rw [List.zip, getD_zipWith_of_lt Prod.mk _ _ 0 0 (0 : ℚ × ℚ) n hL hR,
      getD_echoMix _ _ _ _ _ hn,
      getD_reverbContractChannel _ _ _ _ _ (by rwa [List.length_map]),
      getD_reverbContractChannel _ _ _ _ _ (by rwa [List.length_map])]
    apply Prod.ext
    · rw [Prod.fst_add, fst_finset_sum, getD_map_of_lt Prod.fst st (0 : ℚ × ℚ) 0 n hn]
      congr 1
      refine Finset.sum_congr rfl (fun i _ => ?_)
      rw [apply_ite Prod.fst,
        getD_map_of_lt Prod.fst st (0 : ℚ × ℚ) 0 _ (show n - d * (i + 1) < st.length by omega)]
      simp
    · rw [Prod.snd_add, snd_finset_sum, getD_map_of_lt Prod.snd st (0 : ℚ × ℚ) 0 n hn]
      congr 1
      refine Finset.sum_congr rfl (fun i _ => ?_)
      rw [apply_ite Prod.snd,
        getD_map_of_lt Prod.snd st (0 : ℚ × ℚ) 0 _ (show n - d * (i + 1) < st.length by omega)]
      simp

/-! ## itrunc lemmas -/

theorem itrunc_of_nonneg {x : ℚ} (h : 0 ≤ x) : itrunc x = ⌊x⌋ := if_pos h

theorem itrunc_intCast (z : ℤ) : itrunc (z : ℚ) = z := by
  by_cases h : 0 ≤ (z : ℚ)
  · rw [itrunc, if_pos h, Int.floor_intCast]
  · rw [itrunc, if_neg h, ← Int.cast_neg, Int.floor_intCast, neg_neg]

theorem abs_itrunc (x : ℚ) : |itrunc x| = itrunc |x| := by
  by_cases h : 0 ≤ x
  · rw [abs_of_nonneg h, itrunc_of_nonneg h]
    exact abs_of_nonneg (Int.floor_nonneg.mpr h)
  · push_neg at h
    rw [itrunc, if_neg (not_le.mpr h), abs_neg, abs_of_neg h,
      itrunc_of_nonneg (by linarith)]
    exact abs_of_nonneg (Int.floor_nonneg.mpr (by linarith))

theorem itrunc_mono {x y : ℚ} (h0 : 0 ≤ x) (h : x ≤ y) : itrunc x ≤ itrunc y := by
  rw [itrunc_of_nonneg h0, itrunc_of_nonneg (le_trans h0 h)]
  exact Int.floor_le_floor h

/-! ## Peak of the final rescale-to-full-scale step -/

/-- Dividing a signal by its (nonzero) peak and rescaling to `32767` makes the
integer peak exactly `32767`. -/
theorem peakZ_map_rescale (l : List ℚ) (h : peakQ l ≠ 0) :
    peakZ (l.map (fun v => itrunc (v / peakQ l * 32767))) = 32767 := by
  have hP : 0 < peakQ l := lt_of_le_of_ne (peakBy_nonneg _ l) (Ne.symm h)
  have habs : ∀ v : ℚ, |itrunc (v / peakQ l * 32767)| = itrunc (|v| / peakQ l * 32767) := by
    intro v
    rw [abs_itrunc, abs_mul, abs_div, abs_of_pos hP]
    norm_num
  have hub : ∀ v ∈ l, |itrunc (v / peakQ l * 32767)| ≤ 32767 := by
    intro v hv
    rw [habs v]
    have h1 : |v| / peakQ l ≤ 1 := by
      rw [div_le_one hP]
      exact le_peakBy _ hv
    have h2 : |v| / peakQ l * 32767 ≤ 32767 := by nlinarith [abs_nonneg v]
    calc itrunc (|v| / peakQ l * 32767) ≤ itrunc 32767 :=
          itrunc_mono (by positivity) h2
      _ = 32767 := by rw [show (32767 : ℚ) = ((32767 : ℤ) : ℚ) by norm_num, itrunc_intCast]
  rw [peakZ, peakBy_map]
  apply le_antisymm
  · apply peakBy_le _ (by norm_num)
    intro v hv
    have := hub v hv
    exact_mod_cast this
  · rcases exists_eq_peakBy (fun v => |v|) h with ⟨v, hv, hpeak⟩
    have hpeak' : |v| = peakQ l := hpeak
    have hval : |itrunc (v / peakQ l * 32767)| = 32767 := by
      rw [habs v, hpeak', div_self (ne_of_gt hP), one_mul,
        show (32767 : ℚ) = ((32767 : ℤ) : ℚ) by norm_num, itrunc_intCast]
    have hle := le_peakBy (fun (x : ℚ) => |((itrunc (x / peakQ l * 32767) : ℤ) : ℚ)|) hv
    refine le_trans (le_of_eq ?_) hle
    show (32767 : ℚ) = |((itrunc (v / peakQ l * 32767) : ℤ) : ℚ)|
    exact_mod_cast hval.symm

/-! ## A non-silent signal stays non-silent through the echo loop -/

/-- If the input has a nonzero entry and the delay is at least one position,
the echo-mixed signal also has a nonzero entry: at the first nonzero input
position every echo contribution reads a strictly earlier (hence zero)
position, so the mix there equals the input. -/
theorem peakBy_echoMix_ne_zero {α : Type} [AddCommMonoid α] [DecidableEq α]
    (f : α → ℚ) (sc : ℕ → α → α) (xs : List α) (d reps : ℕ)
    (hfnn : ∀ y, 0 ≤ f y) (hfz : ∀ y : α, f y = 0 → y = 0) (hf0 : f 0 = 0)
    (hsc : ∀ i, sc i 0 = 0) (hd : 1 ≤ d)
    (h : peakBy f xs ≠ 0) : peakBy f (echoMix xs d reps sc) ≠ 0 := by
  rcases exists_eq_peakBy f h with ⟨x, hx, hfx⟩
  have hxne : x ≠ 0 := fun h0 => h (by rw [← hfx, h0, hf0])
  rcases List.getElem_of_mem hx with ⟨n, hn, hget⟩
  have hex : ∃ m, xs.getD m 0 ≠ 0 :=
    ⟨n, by rw [List.getD_eq_getElem _ _ hn, hget]; exact hxne⟩
  have hP : xs.getD (Nat.find hex) 0 ≠ 0 := Nat.find_spec hex
  have hmin : ∀ m, m < Nat.find hex → xs.getD m 0 = 0 := fun m hm =>
    not_not.mp (Nat.find_min hex hm)
  have hn0 : Nat.find hex < xs.length := by
    by_contra hc
    push_neg at hc
    exact hP (List.getD_eq_default _ _ hc)
  have hmix : (echoMix xs d reps sc).getD (Nat.find hex) 0 = xs.getD (Nat.find hex) 0 := by
    rw [getD_echoMix _ _ _ _ _ hn0]
    have hsum : ∑ i ∈ Finset.range reps,
        (if d * (i + 1) ≤ Nat.find hex
          then sc (i + 1) (xs.getD (Nat.find hex - d * (i + 1)) 0) else 0) = 0 := by
      apply Finset.sum_eq_zero
      intro i _
      by_cases hc : d * (i + 1) ≤ Nat.find hex
      · have h1 : 1 ≤ d * (i + 1) := le_trans hd (Nat.le_mul_of_pos_right d (by omega))
        rw [if_pos hc, hmin (Nat.find hex - d * (i + 1)) (by omega), hsc]
      · rw [if_neg hc]
    rw [hsum, add_zero]
  intro hzero
  have hmem : (echoMix xs d reps sc).getD (Nat.find hex) 0 ∈ echoMix xs d reps sc :=
    mem_of_getD_lt _ _ _ (by rw [length_echoMix]; exact hn0)
  have hle := le_peakBy f hmem
  rw [hzero] at hle
  have hfe : f ((echoMix xs d reps sc).getD (Nat.find hex) 0) = 0 :=
    le_antisymm hle (hfnn _)
  exact hP (by rw [← hmix]; exact hfz _ hfe)

/-! ## reverb_audio refines reverbContract -/

theorem reverb_audio_mono_eq (decay : ℚ) (delayMs reps : ℕ) (a : AudioSeg)
    (h2 : ¬ a.channels = 2) (hd : 0 < a.frameRate * delayMs / 1000)
    (hP : peakQ (reverbContractChannel decay (a.frameRate * delayMs / 1000) reps
        (a.samples.map (fun (s : ℤ) => (s : ℚ)))) ≠ 0) :
    reverb_audio decay delayMs reps a = .ok (reverbContract decay delayMs reps a) := by
  have hg : ¬ (a.frameRate * delayMs / 1000 = 0 ∧ 1 ≤ reps) := by
    intro hc
    omega
  simp only [reverb_audio, reverbContract, echoMix_eq_contractChannel]
  rw [if_neg hg, if_neg h2, if_neg h2, if_neg hP, List.map_map]
  rfl

theorem reverb_audio_stereo_eq (decay : ℚ) (delayMs reps : ℕ) (a : AudioSeg)
    (h2 : a.channels = 2) (hd : 0 < a.frameRate * delayMs / 1000)
    (hP : peakSt (echoMix (pairUp (a.samples.map (fun (s : ℤ) => (s : ℚ))))
        (a.frameRate * delayMs / 1000) reps
        (fun i p => (decay ^ i * p.1, decay ^ i * p.2))) ≠ 0) :
    reverb_audio decay delayMs reps a = .ok (reverbContract decay delayMs reps a) := by
  have hg : ¬ (a.frameRate * delayMs / 1000 = 0 ∧ 1 ≤ reps) := by
    intro hc
    omega
  have hzipPeak : peakSt (echoMix (pairUp (a.samples.map (fun (s : ℤ) => (s : ℚ))))
      (a.frameRate * delayMs / 1000) reps
      (fun i p => (decay ^ i * p.1, decay ^ i * p.2))) =
      reverbMixedPeak decay delayMs reps a := by
    rw [peakSt, echoMixSt_eq_zip, peakBy_zip, reverbMixedPeak, peakQ, peakQ]
    rw [length_reverbContractChannel, length_reverbContractChannel,
      List.length_map, List.length_map]
  simp only [reverb_audio, reverbContract]
  rw [if_neg hg, if_pos h2, if_pos h2, if_neg (by rw [hzipPeak] at hP; rw [hzipPeak]; exact hP)]
  congr 1
  rw [hzipPeak, echoMixSt_eq_zip]
  have hcomp : ∀ (lz : List (ℚ × ℚ)) (m : ℚ),
      (flattenP (lz.map (fun p => (p.1 / m, p.2 / m)))).map (fun v => itrunc (v * 32767)) =
        (flattenP lz).map (fun v => itrunc (v / m * 32767)) := by
    intro lz m
    rw [flattenP_map (fun v => v / m), List.map_map]
    rfl
  rw [hcomp]

/-! ## Peak bridges between integer samples, cast samples and frames -/

theorem peakQ_map_cast (l : List ℤ) : peakQ (l.map (fun (s : ℤ) => (s : ℚ))) = peakZ l := by
  rw [peakQ, peakBy_map, peakZ]

theorem peakSt_pairUp_cast (l : List ℤ) (heven : l.length % 2 = 0) :
    peakSt (pairUp (l.map (fun (s : ℤ) => (s : ℚ)))) = peakZ l := by
  have hlen : (l.map (fun (s : ℤ) => (s : ℚ))).length % 2 = 0 := by
    rw [List.length_map]; exact heven
  have hfl := flattenP_pairUp _ hlen
  calc peakSt (pairUp (l.map (fun (s : ℤ) => (s : ℚ))))
      = peakQ (flattenP (pairUp (l.map (fun (s : ℤ) => (s : ℚ))))) := by
        rw [peakQ, peakBy_flattenP, peakSt]
    _ = peakQ (l.map (fun (s : ℤ) => (s : ℚ))) := by rw [hfl]
    _ = peakZ l := peakQ_map_cast l

theorem mono_mix_peak_ne_zero (decay : ℚ) (d reps : ℕ) (l : List ℤ) (hd : 1 ≤ d)
    (hsil : peakZ l ≠ 0) :
    peakQ (echoMix (l.map (fun (s : ℤ) => (s : ℚ))) d reps (fun i v => decay ^ i * v)) ≠ 0 := by
  rw [peakQ]
  apply peakBy_echoMix_ne_zero _ _ _ _ _ (fun y => abs_nonneg y) (fun y hy => abs_eq_zero.mp hy)
    abs_zero (fun i => mul_zero _) hd
  rw [← peakQ, peakQ_map_cast]
  exact hsil

theorem stereo_mix_peak_ne_zero (decay : ℚ) (d reps : ℕ) (l : List ℤ) (hd : 1 ≤ d)
    (heven : l.length % 2 = 0) (hsil : peakZ l ≠ 0) :
    peakSt (echoMix (pairUp (l.map (fun (s : ℤ) => (s : ℚ)))) d reps
      (fun i p => (decay ^ i * p.1, decay ^ i * p.2))) ≠ 0 := by
  have hfnn : ∀ (y : ℚ × ℚ), 0 ≤ max |y.1| |y.2| := fun y =>
    le_trans (abs_nonneg y.1) (le_max_left _ _)
  have hfz : ∀ (y : ℚ × ℚ), max |y.1| |y.2| = 0 → y = 0 := fun y hy => by
    have h1 : |y.1| = 0 := le_antisymm (by rw [← hy]; exact le_max_left _ _) (abs_nonneg _)
    have h2 : |y.2| = 0 := le_antisymm (by rw [← hy]; exact le_max_right _ _) (abs_nonneg _)
    exact Prod.ext (abs_eq_zero.mp h1) (abs_eq_zero.mp h2)
  have hpk : peakBy (fun (p : ℚ × ℚ) => max |p.1| |p.2|)
      (pairUp (l.map (fun (s : ℤ) => (s : ℚ)))) ≠ 0 := by
    rw [← peakSt, peakSt_pairUp_cast _ heven]
    exact hsil
  rw [peakSt]
  exact peakBy_echoMix_ne_zero (fun (p : ℚ × ℚ) => max |p.1| |p.2|)
    (fun i p => (decay ^ i * p.1, decay ^ i * p.2)) _ d reps hfnn hfz (by simp)
    (fun i => by simp) hd hpk

/-- Master refinement lemma: under a positive delay (in samples), an
even-length stereo layout and a non-silent input, `reverb_audio` succeeds and
computes exactly the spec's contract. -/
theorem reverb_audio_ok (decay : ℚ) (delayMs reps : ℕ) (a : AudioSeg)
    (heven : a.channels = 2 → a.samples.length % 2 = 0)
    (hd : 0 < a.frameRate * delayMs / 1000) (hsil : peakZ a.samples ≠ 0) :
    reverb_audio decay delayMs reps a = .ok (reverbContract decay delayMs reps a) := by
  by_cases h2 : a.channels = 2
  · exact reverb_audio_stereo_eq decay delayMs reps a h2 hd
      (stereo_mix_peak_ne_zero decay _ reps a.samples hd (heven h2) hsil)
  · apply reverb_audio_mono_eq decay delayMs reps a h2 hd
    rw [← echoMix_eq_contractChannel]
    exact mono_mix_peak_ne_zero decay _ reps a.samples hd hsil

/-- **C4.** For every buffer and valid reverb parameters (`decay ∈ (0,1)`,
a positive delay — at least one sample-frame after the
`delaySamples = sampleRate * delayMs / 1000` conversion — and integer
`repeats ≥ 1`), and a non-silent input of a stereo (even interleaved length)
or mono layout, the Reverb transform computes exactly the spec's contract
`reverbContract`: for each repeat index `i` from `1` to `repeats` a copy of
the original pre-echo samples shifted forward by `delaySamples * i` frames
(first `delaySamples * i` frames silent) scaled by `decay ^ i`, accumulated
onto an output initialised as a copy of the original signal, and finally the
whole output divided by its observed peak absolute amplitude and rescaled to
the maximum representable 16-bit amplitude; stereo is processed per-channel
with frame-aligned delay lines (`reverbContractChannel` on each channel of
the frame list), mono with a single delay line. -/
theorem c4_reverb_refinement (decay : ℚ) (delayMs reps : ℕ) (a : AudioSeg)
    (_hch : a.channels = 2 ∨ a.channels = 1)
    (heven : a.channels = 2 → a.samples.length % 2 = 0)
    (_hdecay0 : 0 < decay) (_hdecay1 : decay < 1)
    (hd : 0 < a.frameRate * delayMs / 1000) (_hreps : 1 ≤ reps)
    (hsil : peakZ a.samples ≠ 0) :
    reverb_audio decay delayMs reps a = .ok (reverbContract decay delayMs reps a) :=
  reverb_audio_ok decay delayMs reps a heven hd hsil

/-- Witness for `c4_reverb_refinement` at a concrete mono buffer. -/
theorem c4_reverb_refinement_witness :
    ((⟨1, 10, [4, 0, 8, 0]⟩ : AudioSeg).channels = 2 ∨
      (⟨1, 10, [4, 0, 8, 0]⟩ : AudioSeg).channels = 1) ∧
    ((⟨1, 10, [4, 0, 8, 0]⟩ : AudioSeg).channels = 2 →
      (⟨1, 10, [4, 0, 8, 0]⟩ : AudioSeg).samples.length % 2 = 0) ∧
    (0 < (1/2 : ℚ)) ∧ ((1/2 : ℚ) < 1) ∧
    (0 < (⟨1, 10, [4, 0, 8, 0]⟩ : AudioSeg).frameRate * 200 / 1000) ∧ (1 ≤ 1) ∧
    (peakZ (⟨1, 10, [4, 0, 8, 0]⟩ : AudioSeg).samples ≠ 0) ∧
    reverb_audio (1/2) 200 1 ⟨1, 10, [4, 0, 8, 0]⟩ =
      .ok (reverbContract (1/2) 200 1 ⟨1, 10, [4, 0, 8, 0]⟩) :=
  ⟨Or.inr rfl, by decide, by norm_num, by norm_num, by decide, le_refl 1,
    by norm_num [peakZ, peakBy],
    c4_reverb_refinement (1/2) 200 1 ⟨1, 10, [4, 0, 8, 0]⟩ (Or.inr rfl) (by decide)
      (by norm_num) (by norm_num) (by decide) (le_refl 1) (by norm_num [peakZ, peakBy])⟩

/-- **C1.** The claim (and spec §4.2/§7 `DegenerateSignal`) requires the
silent case to be a guarded no-op: an all-zero buffer through Reverb must come
out all-zero with no NaN produced.  The code has no such guard: on the
all-zero 4-sample mono buffer the peak is `0`, `output /= np.max(np.abs(output))`
divides by zero, and every sample becomes NaN (numpy emits a warning and
produces non-finite values, modelled as the `nonFiniteSamples` error) — the
output is not an all-zero buffer. -/
theorem c1_silent_reverb_not_guarded :
    reverb_audio (3/10) 120 2 ⟨1, 44100, [0, 0, 0, 0]⟩ = .err .nonFiniteSamples := by
  norm_num [reverb_audio, echoMix, delayLine, peakQ, peakBy,
    List.range_succ, List.replicate_succ, List.zipWith]

/-- **C2.** The claim (and spec §4.2/§7 `InvalidParameter`) requires reverb
with `repeats ≤ 0` to fail fast with `InvalidParameter` before mutating any
sample data.  The code performs no parameter validation: with `repeats = 0`
the echo loop simply runs zero times and the transform still rescales the
buffer to full scale and returns it — no error of any kind is raised and the
sample data is mutated (`[100, 50]` becomes `[32767, 16383]`). -/
theorem c2_no_invalid_parameter_check :
    reverb_audio (3/10) 120 0 ⟨1, 44100, [100, 50]⟩ = .ok ⟨1, 44100, [32767, 16383]⟩ ∧
    ([32767, 16383] : List ℤ) ≠ [100, 50] := by
  constructor
  · norm_num [reverb_audio, echoMix, delayLine, peakQ, peakBy, itrunc,
      List.range_succ, List.replicate_succ, List.zipWith]
  · decide

/-- **C5.** The orchestrator applies the gated stages to the one buffer in
exactly the fixed order Speed, Reverb, Surround, Dimension — each stage
applying its transform exactly when its flag is enabled and passing the
buffer through unchanged when disabled — and then always applies the
Normalize transform last, for every configuration of the boolean flags. -/
theorem c5_process_pipeline_order (sin2pi amp : ℚ → ℚ) (cfg : Config) (a : AudioSeg) :
    process sin2pi amp cfg a =
      (((((Res.ok a).andThen
          (gatedStage cfg.slow_down (slow_audio cfg.slow_speed))).andThen
          (gatedStage cfg.reverb
            (reverb_audio cfg.reverb_decay cfg.reverb_delay_ms cfg.reverb_repeats))).andThen
          (gatedStage cfg.surround
            (surround_audio sin2pi cfg.surround_cycle_duration cfg.surround_depth))).andThen
          (gatedStage cfg.dimension
            (apply_nd_audio_effect sin2pi cfg.dimension_number cfg.dimension_cycle))).andThen
        (normalize_audio amp cfg.target_dBFS) := by
  unfold process
  rw [show ((Res.ok a).andThen (gatedStage cfg.slow_down (slow_audio cfg.slow_speed))) =
    (if cfg.slow_down then slow_audio cfg.slow_speed a else .ok a) from rfl]
  cases hs : (if cfg.slow_down then slow_audio cfg.slow_speed a else Res.ok a) with
  | err e => rfl
  | ok a1 =>
    dsimp only
    rw [show ((Res.ok a1).andThen (gatedStage cfg.reverb
        (reverb_audio cfg.reverb_decay cfg.reverb_delay_ms cfg.reverb_repeats))) =
      (if cfg.reverb then
        reverb_audio cfg.reverb_decay cfg.reverb_delay_ms cfg.reverb_repeats a1
      else .ok a1) from rfl]
    cases hr : (if cfg.reverb then
        reverb_audio cfg.reverb_decay cfg.reverb_delay_ms cfg.reverb_repeats a1
      else Res.ok a1) with
    | err e => rfl
    | ok a2 =>
      dsimp only
      rw [show ((Res.ok a2).andThen (gatedStage cfg.surround
          (surround_audio sin2pi cfg.surround_cycle_duration cfg.surround_depth))) =
        (if cfg.surround then
          surround_audio sin2pi cfg.surround_cycle_duration cfg.surround_depth a2
        else .ok a2) from rfl]
      cases hsu : (if cfg.surround then
          surround_audio sin2pi cfg.surround_cycle_duration cfg.surround_depth a2
        else Res.ok a2) with
      | err e => rfl
      | ok a3 =>
        dsimp only
        rw [show ((Res.ok a3).andThen (gatedStage cfg.dimension
            (apply_nd_audio_effect sin2pi cfg.dimension_number cfg.dimension_cycle))) =
          (if cfg.dimension then
            apply_nd_audio_effect sin2pi cfg.dimension_number cfg.dimension_cycle a3
          else .ok a3) from rfl]
        cases hdi : (if cfg.dimension then
            apply_nd_audio_effect sin2pi cfg.dimension_number cfg.dimension_cycle a3
          else Res.ok a3) with
        | err e => rfl
        | ok a4 => rfl

/-- **C6.** For every non-stereo buffer, both pan transforms fail with the
`UnsupportedChannelLayout` error of the spec's taxonomy (the source's
`raise ValueError(...)` guard, executed before any sample is read), producing
no output buffer at all — the input buffer is left completely unmodified. -/
theorem c6_pan_transforms_reject_mono (sin2pi : ℚ → ℚ) (cycle depth dimCycle : ℚ)
    (dimNumber : ℕ) (a : AudioSeg) (hch : a.channels ≠ 2) :
    surround_audio sin2pi cycle depth a = .err .unsupportedChannelLayout ∧
    apply_nd_audio_effect sin2pi dimNumber dimCycle a = .err .unsupportedChannelLayout := by
  constructor
  · rw [surround_audio, if_pos hch]
  · rw [apply_nd_audio_effect, if_pos hch]

/-- Witness for `c6_pan_transforms_reject_mono` at a concrete mono buffer. -/
theorem c6_pan_transforms_reject_mono_witness :
    ((⟨1, 44100, [7, -3]⟩ : AudioSeg).channels ≠ 2) ∧
    (surround_audio (fun _ => 0) 14 (7/10) ⟨1, 44100, [7, -3]⟩ =
      .err .unsupportedChannelLayout ∧
    apply_nd_audio_effect (fun _ => 0) 8 4 ⟨1, 44100, [7, -3]⟩ =
      .err .unsupportedChannelLayout) :=
  ⟨by decide,
    c6_pan_transforms_reject_mono (fun _ => 0) 14 (7/10) 4 8 ⟨1, 44100, [7, -3]⟩ (by decide)⟩

/-- **C7.** For every stereo frame list, the Surround pan stage scales frame
`i` componentwise by the gains derived from `t = (i / sampleRate) mod cycle`
and `pan = sin(2π·t/cycle) * depth`: the left sample by `(1 + pan) / 2` and
the right sample by `(1 - pan) / 2`; and whenever `pan = 0`, both gains equal
`1/2`. -/
theorem c7_surround_gain_formula (sin2pi : ℚ → ℚ) (cycle depth : ℚ) (rate : ℕ)
    (st : List (ℚ × ℚ)) (i : ℕ) (hi : i < st.length) :
    (surroundStage sin2pi cycle depth rate st).getD i 0 =
      ((st.getD i 0).1 *
          ((1 + sin2pi (qmod ((i : ℚ) / (rate : ℚ)) cycle / cycle) * depth) / 2),
        (st.getD i 0).2 *
          ((1 - sin2pi (qmod ((i : ℚ) / (rate : ℚ)) cycle / cycle) * depth) / 2)) ∧
    (sin2pi (qmod ((i : ℚ) / (rate : ℚ)) cycle / cycle) * depth = 0 →
      (surroundStage sin2pi cycle depth rate st).getD i 0 =
        ((st.getD i 0).1 * (1/2), (st.getD i 0).2 * (1/2))) := by
  have hbase : (surroundStage sin2pi cycle depth rate st).getD i 0 =
      ((st.getD i 0).1 *
          ((1 + sin2pi (qmod ((i : ℚ) / (rate : ℚ)) cycle / cycle) * depth) / 2),
        (st.getD i 0).2 *
          ((1 - sin2pi (qmod ((i : ℚ) / (rate : ℚ)) cycle / cycle) * depth) / 2)) := by
    rw [surroundStage, getD_map_range _ _ _ _ hi, surroundGains]
  refine ⟨hbase, fun hpan => ?_⟩
  rw [hbase, hpan]
  norm_num

/-- Witness for `c7_surround_gain_formula` at a concrete frame. -/
theorem c7_surround_gain_formula_witness :
    (0 < ([((4 : ℚ), (6 : ℚ))] : List (ℚ × ℚ)).length) ∧
    ((surroundStage (fun _ => 0) 2 (7/10) 10 [((4 : ℚ), (6 : ℚ))]).getD 0 0 =
      (([((4 : ℚ), (6 : ℚ))].getD 0 0).1 *
          ((1 + (fun (_ : ℚ) => (0 : ℚ)) (qmod ((0 : ℕ) / (10 : ℚ)) 2 / 2) * (7/10)) / 2),
        ([((4 : ℚ), (6 : ℚ))].getD 0 0).2 *
          ((1 - (fun (_ : ℚ) => (0 : ℚ)) (qmod ((0 : ℕ) / (10 : ℚ)) 2 / 2) * (7/10)) / 2)) ∧
    ((fun (_ : ℚ) => (0 : ℚ)) (qmod ((0 : ℕ) / (10 : ℚ)) 2 / 2) * (7/10) = 0 →
      (surroundStage (fun _ => 0) 2 (7/10) 10 [((4 : ℚ), (6 : ℚ))]).getD 0 0 =
        (([((4 : ℚ), (6 : ℚ))].getD 0 0).1 * (1/2),
          ([((4 : ℚ), (6 : ℚ))].getD 0 0).2 * (1/2)))) :=
  ⟨by decide, c7_surround_gain_formula (fun _ => 0) 2 (7/10) 10 [((4 : ℚ), (6 : ℚ))] 0 (by decide)⟩

/-- **C8.** For every stereo buffer, the Dimension transform is the Surround
periodic-panning algorithm (the same gain computation `surroundGains`) with
its cycle duration derived as `dimension_cycle * (dimension_number / 8)` and
its pan depth fixed at `1` (full swing, not configurable), each panned sample
truncated to its integer storage, and no final peak renormalisation applied
to the output (`dimensionContract` contains no division by a peak). -/
theorem c8_dimension_is_surround_depth_one (sin2pi : ℚ → ℚ) (dimNumber : ℕ)
    (dimCycle : ℚ) (a : AudioSeg) (h2 : a.channels = 2) :
    apply_nd_audio_effect sin2pi dimNumber dimCycle a =
      .ok (dimensionContract sin2pi dimNumber dimCycle a) := by
  rw [apply_nd_audio_effect, dimensionContract,
    if_neg (show ¬ a.channels ≠ 2 from fun h => h h2)]
  simp only [surroundGains, mul_one]

/-- Witness for `c8_dimension_is_surround_depth_one` at a concrete one-frame
stereo buffer. -/
theorem c8_dimension_is_surround_depth_one_witness :
    ((⟨2, 44100, [3, 4]⟩ : AudioSeg).channels = 2) ∧
    apply_nd_audio_effect (fun _ => 0) 8 4 ⟨2, 44100, [3, 4]⟩ =
      .ok (dimensionContract (fun _ => 0) 8 4 ⟨2, 44100, [3, 4]⟩) :=
  ⟨rfl, c8_dimension_is_surround_depth_one (fun _ => 0) 8 4 ⟨2, 44100, [3, 4]⟩ rfl⟩

/-! ## C3 machinery: early frames, lengths, flat peak -/

theorem contractChannel_early (decay : ℚ) (d reps : ℕ) (orig : List ℚ) (k : ℕ)
    (hk : k < d) (hlen : k < orig.length) :
    (reverbContractChannel decay d reps orig).getD k 0 = orig.getD k 0 := by
  rw [getD_reverbContractChannel _ _ _ _ _ hlen]
  have hzero : ∑ i ∈ Finset.range reps,
      (if d * (i + 1) ≤ k then decay ^ (i + 1) * orig.getD (k - d * (i + 1)) 0 else 0) = 0 := by
    apply Finset.sum_eq_zero
    intro i _
    apply if_neg
    intro hc
    have hdd : d ≤ d * (i + 1) := Nat.le_mul_of_pos_right d (by omega)
    omega
  rw [hzero, add_zero]

theorem pairUp_map_flattenP {α β : Type} (g : α → β) (l : List (α × α)) :
    pairUp ((flattenP l).map g) = l.map (fun p => (g p.1, g p.2)) := by
  rw [← flattenP_map, pairUp_flattenP]

theorem peakQ_flatten_zip_eq_mixedPeak (decay : ℚ) (delayMs reps : ℕ) (a : AudioSeg) :
    peakQ (flattenP
      ((reverbContractChannel decay (a.frameRate * delayMs / 1000) reps
          ((pairUp (a.samples.map (fun (s : ℤ) => (s : ℚ)))).map Prod.fst)).zip
        (reverbContractChannel decay (a.frameRate * delayMs / 1000) reps
          ((pairUp (a.samples.map (fun (s : ℤ) => (s : ℚ)))).map Prod.snd)))) =
      reverbMixedPeak decay delayMs reps a := by
  rw [peakQ, peakBy_flattenP, peakBy_zip, reverbMixedPeak, peakQ, peakQ]
  rw [length_reverbContractChannel, length_reverbContractChannel,
    List.length_map, List.length_map]

theorem mixedPeak_ne_zero (decay : ℚ) (delayMs reps : ℕ) (a : AudioSeg)
    (hd : 1 ≤ a.frameRate * delayMs / 1000) (heven : a.samples.length % 2 = 0)
    (hsil : peakZ a.samples ≠ 0) : reverbMixedPeak decay delayMs reps a ≠ 0 := by
  have h1 := stereo_mix_peak_ne_zero decay (a.frameRate * delayMs / 1000) reps a.samples
    hd heven hsil
  rw [peakSt, echoMixSt_eq_zip, peakBy_zip _ _ _ (by
    rw [length_reverbContractChannel, length_reverbContractChannel,
      List.length_map, List.length_map])] at h1
  rw [reverbMixedPeak]
  exact h1

/-- **C3 (amended).** Stereo buffer, reverb decay `3/10`, delay `120` ms,
`repeats = 2`, sample rate `44100` (so `delaySamples = 5292`), non-silent
input: the output has the same number of interleaved samples as the input and
its peak never exceeds the maximum representable 16-bit amplitude; but the
first `delaySamples` frames of the output are NOT the original samples — they
are the original samples with no echo contribution, uniformly rescaled by the
final peak normalisation (divided by the observed mixed peak, scaled to
`32767` and truncated). -/
theorem c3_reverb_scenario_stereo (a : AudioSeg) (h2 : a.channels = 2)
    (heven : a.samples.length % 2 = 0) (hrate : a.frameRate = 44100)
    (hsil : peakZ a.samples ≠ 0) :
    reverb_audio (3/10) 120 2 a = .ok (reverbContract (3/10) 120 2 a) ∧
    (reverbContract (3/10) 120 2 a).samples.length = a.samples.length ∧
    (∀ s ∈ (reverbContract (3/10) 120 2 a).samples, |s| ≤ 32767) ∧
    (∀ k : ℕ, k < 5292 →
      (pairUp (reverbContract (3/10) 120 2 a).samples).getD k 0 =
        (itrunc (((pairUp (a.samples.map (fun (s : ℤ) => (s : ℚ)))).getD k 0).1 /
            reverbMixedPeak (3/10) 120 2 a * 32767),
          itrunc (((pairUp (a.samples.map (fun (s : ℤ) => (s : ℚ)))).getD k 0).2 /
            reverbMixedPeak (3/10) 120 2 a * 32767))) := by
  have hd : 0 < a.frameRate * 120 / 1000 := by rw [hrate]; norm_num
  have hLlen : (reverbContractChannel (3/10) (a.frameRate * 120 / 1000) 2
      ((pairUp (a.samples.map (fun (s : ℤ) => (s : ℚ)))).map Prod.fst)).length =
      (pairUp (a.samples.map (fun (s : ℤ) => (s : ℚ)))).length := by
    rw [length_reverbContractChannel, List.length_map]
  have hRlen : (reverbContractChannel (3/10) (a.frameRate * 120 / 1000) 2
      ((pairUp (a.samples.map (fun (s : ℤ) => (s : ℚ)))).map Prod.snd)).length =
      (pairUp (a.samples.map (fun (s : ℤ) => (s : ℚ)))).length := by
    rw [length_reverbContractChannel, List.length_map]
  have hfrlen : (pairUp (a.samples.map (fun (s : ℤ) => (s : ℚ)))).length =
      a.samples.length / 2 := by
    rw [length_pairUp, List.length_map]
  have hcontract : (reverbContract (3/10) 120 2 a).samples =
      List.map (fun v => itrunc (v / reverbMixedPeak (3/10) 120 2 a * 32767))
        (flattenP
          ((reverbContractChannel (3/10) (a.frameRate * 120 / 1000) 2
              ((pairUp (a.samples.map (fun (s : ℤ) => (s : ℚ)))).map Prod.fst)).zip
            (reverbContractChannel (3/10) (a.frameRate * 120 / 1000) 2
              ((pairUp (a.samples.map (fun (s : ℤ) => (s : ℚ)))).map Prod.snd)))) := by
    rw [reverbContract, if_pos h2]
  have hPflat := peakQ_flatten_zip_eq_mixedPeak (3/10) 120 2 a
  have hPne : reverbMixedPeak (3/10) 120 2 a ≠ 0 :=
    mixedPeak_ne_zero (3/10) 120 2 a (by omega) heven hsil
  refine ⟨reverb_audio_ok (3/10) 120 2 a (fun _ => heven) hd hsil, ?_, ?_, ?_⟩
  · rw [hcontract]
    simp only [List.length_map, length_flattenP, List.length_zip, hLlen, hRlen, hfrlen]
    omega
  · intro s hs
    rw [hcontract] at hs
    have hle := le_peakBy (fun (s : ℤ) => |(s : ℚ)|) hs
    rw [← peakZ, ← hPflat] at hle
    rw [peakZ_map_rescale _ (by rw [hPflat]; exact hPne)] at hle
    have hle2 : |((s : ℤ) : ℚ)| ≤ 32767 := hle
    exact_mod_cast hle2
  · intro k hk
    rw [hcontract]
    rw [pairUp_map_flattenP]
    by_cases hkfr : k < (pairUp (a.samples.map (fun (s : ℤ) => (s : ℚ)))).length
    · have hkL : k < (reverbContractChannel (3/10) (a.frameRate * 120 / 1000) 2
          ((pairUp (a.samples.map (fun (s : ℤ) => (s : ℚ)))).map Prod.fst)).length := by
        rw [hLlen]; exact hkfr
      have hkR : k < (reverbContractChannel (3/10) (a.frameRate * 120 / 1000) 2
          ((pairUp (a.samples.map (fun (s : ℤ) => (s : ℚ)))).map Prod.snd)).length := by
        rw [hRlen]; exact hkfr
      rw [getD_map_of_lt _ _ (0 : ℚ × ℚ) _ k (by rw [List.length_zip]; omega)]
      rw [List.zip, getD_zipWith_of_lt Prod.mk _ _ 0 0 (0 : ℚ × ℚ) k hkL hkR]
      rw [contractChannel_early _ _ _ _ _ (by omega) (by rw [List.length_map]; exact hkfr),
        contractChannel_early _ _ _ _ _ (by omega) (by rw [List.length_map]; exact hkfr)]
      rw [getD_map_of_lt Prod.fst _ (0 : ℚ × ℚ) 0 k hkfr,
        getD_map_of_lt Prod.snd _ (0 : ℚ × ℚ) 0 k hkfr]
    · push_neg at hkfr
      rw [List.getD_eq_default _ _ (by
          rw [List.length_map, List.length_zip]; omega),
        List.getD_eq_default _ _ hkfr]
      norm_num [itrunc]

/-- **C3 counterexample.** The claim as stated — "the first `delaySamples`
frames of the output equal the original (undelayed) input samples exactly" —
is false: on the stereo buffer `[100, 0, 50, 0]` at 44100 Hz with decay
`3/10`, delay 120 ms, `repeats = 2`, no echo reaches any frame (the buffer is
shorter than one delay), yet the output is `[32767, 0, 16383, 0]`: the first
frame holds `32767 ≠ 100` because the whole output is rescaled to full scale
by the peak normalisation. -/
theorem c3_counterexample :
    reverb_audio (3/10) 120 2 ⟨2, 44100, [100, 0, 50, 0]⟩ =
      .ok ⟨2, 44100, [32767, 0, 16383, 0]⟩ ∧
    (⟨2, 44100, [100, 0, 50, 0]⟩ : AudioSeg).samples.getD 0 0 = 100 ∧
    (32767 : ℤ) ≠ 100 := by
  refine ⟨?_, rfl, by decide⟩
  norm_num [reverb_audio, echoMix, delayLine, peakSt, peakBy, pairUp, flattenP, itrunc,
    List.range_succ, List.replicate_succ, List.zipWith]

/-- Witness for `c3_reverb_scenario_stereo` at a concrete stereo buffer. -/
theorem c3_reverb_scenario_stereo_witness :
    ((⟨2, 44100, [100, 0, 50, 0]⟩ : AudioSeg).channels = 2) ∧
    ((⟨2, 44100, [100, 0, 50, 0]⟩ : AudioSeg).samples.length % 2 = 0) ∧
    ((⟨2, 44100, [100, 0, 50, 0]⟩ : AudioSeg).frameRate = 44100) ∧
    (peakZ (⟨2, 44100, [100, 0, 50, 0]⟩ : AudioSeg).samples ≠ 0) ∧
    (reverb_audio (3/10) 120 2 ⟨2, 44100, [100, 0, 50, 0]⟩ =
      .ok (reverbContract (3/10) 120 2 ⟨2, 44100, [100, 0, 50, 0]⟩) ∧
    (reverbContract (3/10) 120 2 ⟨2, 44100, [100, 0, 50, 0]⟩).samples.length =
      (⟨2, 44100, [100, 0, 50, 0]⟩ : AudioSeg).samples.length ∧
    (∀ s ∈ (reverbContract (3/10) 120 2 ⟨2, 44100, [100, 0, 50, 0]⟩).samples,
      |s| ≤ 32767) ∧
    (∀ k : ℕ, k < 5292 →
      (pairUp (reverbContract (3/10) 120 2 ⟨2, 44100, [100, 0, 50, 0]⟩).samples).getD k 0 =
        (itrunc ((((pairUp ((⟨2, 44100, [100, 0, 50, 0]⟩ : AudioSeg).samples.map
              (fun (s : ℤ) => (s : ℚ)))).getD k 0).1) /
            reverbMixedPeak (3/10) 120 2 ⟨2, 44100, [100, 0, 50, 0]⟩ * 32767),
          itrunc ((((pairUp ((⟨2, 44100, [100, 0, 50, 0]⟩ : AudioSeg).samples.map
              (fun (s : ℤ) => (s : ℚ)))).getD k 0).2) /
            reverbMixedPeak (3/10) 120 2 ⟨2, 44100, [100, 0, 50, 0]⟩ * 32767)))) :=
  ⟨rfl, by decide, rfl, by norm_num [peakZ, peakBy],
    c3_reverb_scenario_stereo ⟨2, 44100, [100, 0, 50, 0]⟩ rfl (by decide) rfl
      (by norm_num [peakZ, peakBy])⟩

/-! ## C10 machinery: both renormalising transforms pin the peak to 32767 -/

theorem reverbContract_samples_stereo (decay : ℚ) (delayMs reps : ℕ) (a : AudioSeg)
    (h2 : a.channels = 2) :
    (reverbContract decay delayMs reps a).samples =
      List.map (fun v => itrunc (v / reverbMixedPeak decay delayMs reps a * 32767))
        (flattenP
          ((reverbContractChannel decay (a.frameRate * delayMs / 1000) reps
              ((pairUp (a.samples.map (fun (s : ℤ) => (s : ℚ)))).map Prod.fst)).zip
            (reverbContractChannel decay (a.frameRate * delayMs / 1000) reps
              ((pairUp (a.samples.map (fun (s : ℤ) => (s : ℚ)))).map Prod.snd)))) := by
  rw [reverbContract, if_pos h2]

theorem reverbContract_samples_mono (decay : ℚ) (delayMs reps : ℕ) (a : AudioSeg)
    (h2 : ¬ a.channels = 2) :
    (reverbContract decay delayMs reps a).samples =
      List.map (fun v => itrunc (v /
          peakQ (reverbContractChannel decay (a.frameRate * delayMs / 1000) reps
            (a.samples.map (fun (s : ℤ) => (s : ℚ)))) * 32767))
        (reverbContractChannel decay (a.frameRate * delayMs / 1000) reps
          (a.samples.map (fun (s : ℤ) => (s : ℚ)))) := by
  rw [reverbContract, if_neg h2]

/-- The Reverb output's integer peak is exactly `32767` for every non-silent
input with a positive delay. -/
theorem peakZ_reverbContract (decay : ℚ) (delayMs reps : ℕ) (a : AudioSeg)
    (heven : a.channels = 2 → a.samples.length % 2 = 0)
    (hd : 1 ≤ a.frameRate * delayMs / 1000) (hsil : peakZ a.samples ≠ 0) :
    peakZ (reverbContract decay delayMs reps a).samples = 32767 := by
  by_cases h2 : a.channels = 2
  · have hPflat := peakQ_flatten_zip_eq_mixedPeak decay delayMs reps a
    have hPne : reverbMixedPeak decay delayMs reps a ≠ 0 :=
      mixedPeak_ne_zero decay delayMs reps a hd (heven h2) hsil
    rw [reverbContract_samples_stereo decay delayMs reps a h2, ← hPflat]
    exact peakZ_map_rescale _ (by rw [hPflat]; exact hPne)
  · rw [reverbContract_samples_mono decay delayMs reps a h2]
    apply peakZ_map_rescale
    rw [← echoMix_eq_contractChannel]
    exact mono_mix_peak_ne_zero decay _ reps a.samples hd hsil

/-- On non-silent stereo input with `0 ≤ depth < 1` and a bounded sine, the
panned signal is still non-silent: both gains are strictly positive. -/
theorem surround_panned_peak_ne_zero (sin2pi : ℚ → ℚ) (cycle depth : ℚ) (b : AudioSeg)
    (heven : b.samples.length % 2 = 0) (hsil : peakZ b.samples ≠ 0)
    (hdep0 : 0 ≤ depth) (hdep1 : depth < 1) (hsin : ∀ x, |sin2pi x| ≤ 1) :
    peakSt (surroundStage sin2pi cycle depth b.frameRate
      (pairUp (b.samples.map (fun (s : ℤ) => (s : ℚ))))) ≠ 0 := by
  have hfr : peakSt (pairUp (b.samples.map (fun (s : ℤ) => (s : ℚ)))) ≠ 0 := by
    rw [peakSt_pairUp_cast _ heven]; exact hsil
  rcases exists_eq_peakBy _ hfr with ⟨p0, hp0, hfp0⟩
  rcases List.getElem_of_mem hp0 with ⟨n, hn, hget⟩
  have hpanpos : ∀ i : ℕ,
      0 < (surroundGains sin2pi cycle depth b.frameRate i).1 ∧
      0 < (surroundGains sin2pi cycle depth b.frameRate i).2 := by
    intro i
    rw [surroundGains]
    have hb := hsin (qmod ((i : ℚ) / (b.frameRate : ℚ)) cycle / cycle)
    have habs : |sin2pi (qmod ((i : ℚ) / (b.frameRate : ℚ)) cycle / cycle) * depth| ≤ depth := by
      rw [abs_mul, abs_of_nonneg hdep0]
      nlinarith [abs_nonneg (sin2pi (qmod ((i : ℚ) / (b.frameRate : ℚ)) cycle / cycle))]
    rw [abs_le] at habs
    constructor <;> · simp only; linarith
  have hstage : (surroundStage sin2pi cycle depth b.frameRate
      (pairUp (b.samples.map (fun (s : ℤ) => (s : ℚ))))).getD n 0 =
      (p0.1 * (surroundGains sin2pi cycle depth b.frameRate n).1,
        p0.2 * (surroundGains sin2pi cycle depth b.frameRate n).2) := by
    rw [surroundStage, getD_map_range _ _ _ _ hn, List.getD_eq_getElem _ _ hn, hget]
  intro hzero
  have hmem : (surroundStage sin2pi cycle depth b.frameRate
      (pairUp (b.samples.map (fun (s : ℤ) => (s : ℚ))))).getD n 0 ∈
      surroundStage sin2pi cycle depth b.frameRate
        (pairUp (b.samples.map (fun (s : ℤ) => (s : ℚ)))) := by
    apply mem_of_getD_lt
    rw [surroundStage, List.length_map, List.length_range]
    exact hn
  have hle := le_peakBy (fun (p : ℚ × ℚ) => max |p.1| |p.2|) hmem
  rw [← peakSt, hzero, hstage] at hle
  have hcomp : max |p0.1| |p0.2| ≠ 0 := by rw [hfp0]; exact hfr
  have h1 := (hpanpos n).1
  have h2 := (hpanpos n).2
  rcases max_choice |p0.1| |p0.2| with hm | hm <;> rw [hm] at hcomp
  · have habs1 : 0 < |p0.1| := lt_of_le_of_ne (abs_nonneg _) (Ne.symm hcomp)
    have : 0 < |p0.1 * (surroundGains sin2pi cycle depth b.frameRate n).1| := by
      rw [abs_mul, abs_of_pos h1]; positivity
    have hle1 : |p0.1 * (surroundGains sin2pi cycle depth b.frameRate n).1| ≤ 0 :=
      le_trans (le_max_left _ _) hle
    linarith
  · have habs2 : 0 < |p0.2| := lt_of_le_of_ne (abs_nonneg _) (Ne.symm hcomp)
    have : 0 < |p0.2 * (surroundGains sin2pi cycle depth b.frameRate n).2| := by
      rw [abs_mul, abs_of_pos h2]; positivity
    have hle2 : |p0.2 * (surroundGains sin2pi cycle depth b.frameRate n).2| ≤ 0 :=
      le_trans (le_max_right _ _) hle
    linarith

theorem flattenP_scale_trunc (l : List (ℚ × ℚ)) (m : ℚ) :
    flattenP ((l.map (fun p => (p.1 / m * 32767, p.2 / m * 32767))).map
        (fun p => (itrunc p.1, itrunc p.2))) =
      (flattenP l).map (fun v => itrunc (v / m * 32767)) := by
  rw [List.map_map]
  calc flattenP (l.map ((fun (p : ℚ × ℚ) => (itrunc p.1, itrunc p.2)) ∘
          (fun (p : ℚ × ℚ) => (p.1 / m * 32767, p.2 / m * 32767))))
      = flattenP (l.map (fun (p : ℚ × ℚ) =>
          (itrunc (p.1 / m * 32767), itrunc (p.2 / m * 32767)))) := rfl
    _ = (flattenP l).map (fun v => itrunc (v / m * 32767)) :=
        flattenP_map (fun v => itrunc (v / m * 32767)) l

/-- The Surround output's integer peak is exactly `32767` for every
non-silent stereo input with depth in `[0, 1)` and a bounded sine. -/
theorem surround_audio_peakOpt (sin2pi : ℚ → ℚ) (cycle depth : ℚ) (b : AudioSeg)
    (h2 : b.channels = 2) (heven : b.samples.length % 2 = 0)
    (hsil : peakZ b.samples ≠ 0) (hdep0 : 0 ≤ depth) (hdep1 : depth < 1)
    (hsin : ∀ x, |sin2pi x| ≤ 1) :
    Res.peakOpt (surround_audio sin2pi cycle depth b) = some 32767 := by
  have hm := surround_panned_peak_ne_zero sin2pi cycle depth b heven hsil hdep0 hdep1 hsin
  simp only [surround_audio]
  rw [if_neg (show ¬ b.channels ≠ 2 from fun h => h h2), if_neg hm]
  simp only [Res.peakOpt]
  congr 1
  rw [flattenP_scale_trunc]
  have hflatpeak : peakQ (flattenP (surroundStage sin2pi cycle depth b.frameRate
      (pairUp (b.samples.map (fun (s : ℤ) => (s : ℚ)))))) =
      peakSt (surroundStage sin2pi cycle depth b.frameRate
        (pairUp (b.samples.map (fun (s : ℤ) => (s : ℚ))))) := by
    rw [peakQ, peakBy_flattenP, peakSt]
  rw [← hflatpeak]
  exact peakZ_map_rescale _ (by rw [hflatpeak]; exact hm)

/-- **C10.** Both renormalising transforms rescale the whole signal to full
scale even when the input peak is far below it: for every non-silent buffer
(with valid delay and stereo layout where required), the Reverb output's peak
absolute amplitude is exactly the maximum representable 16-bit amplitude
`32767`, and likewise the Surround output's, because both always divide by
the observed peak and rescale to full scale. -/
theorem c10_always_full_scale (decay : ℚ) (delayMs reps : ℕ) (a : AudioSeg)
    (sin2pi : ℚ → ℚ) (cycle depth : ℚ) (b : AudioSeg)
    (heven : a.channels = 2 → a.samples.length % 2 = 0)
    (hd : 1 ≤ a.frameRate * delayMs / 1000) (hsil : peakZ a.samples ≠ 0)
    (h2b : b.channels = 2) (hevenb : b.samples.length % 2 = 0)
    (hsilb : peakZ b.samples ≠ 0) (hdep0 : 0 ≤ depth) (hdep1 : depth < 1)
    (hsin : ∀ x, |sin2pi x| ≤ 1) :
    Res.peakOpt (reverb_audio decay delayMs reps a) = some 32767 ∧
    Res.peakOpt (surround_audio sin2pi cycle depth b) = some 32767 := by
  constructor
  · rw [reverb_audio_ok decay delayMs reps a heven (by omega) hsil]
    simp only [Res.peakOpt]
    exact congrArg some (peakZ_reverbContract decay delayMs reps a heven hd hsil)
  · exact surround_audio_peakOpt sin2pi cycle depth b h2b hevenb hsilb hdep0 hdep1 hsin

/-- Witness for `c10_always_full_scale` at a concrete mono reverb buffer and
a concrete stereo surround buffer. -/
theorem c10_always_full_scale_witness :
    ((⟨1, 10, [4, 0, 8, 0]⟩ : AudioSeg).channels = 2 →
      (⟨1, 10, [4, 0, 8, 0]⟩ : AudioSeg).samples.length % 2 = 0) ∧
    (1 ≤ (⟨1, 10, [4, 0, 8, 0]⟩ : AudioSeg).frameRate * 200 / 1000) ∧
    (peakZ (⟨1, 10, [4, 0, 8, 0]⟩ : AudioSeg).samples ≠ 0) ∧
    ((⟨2, 44100, [3, 4]⟩ : AudioSeg).channels = 2) ∧
    ((⟨2, 44100, [3, 4]⟩ : AudioSeg).samples.length % 2 = 0) ∧
    (peakZ (⟨2, 44100, [3, 4]⟩ : AudioSeg).samples ≠ 0) ∧
    (0 ≤ (7/10 : ℚ)) ∧ ((7/10 : ℚ) < 1) ∧
    (∀ x : ℚ, |(fun (_ : ℚ) => (0 : ℚ)) x| ≤ 1) ∧
    (Res.peakOpt (reverb_audio (1/2) 200 1 ⟨1, 10, [4, 0, 8, 0]⟩) = some 32767 ∧
      Res.peakOpt (surround_audio (fun _ => 0) 14 (7/10) ⟨2, 44100, [3, 4]⟩) =
        some 32767) :=
  ⟨by decide, by decide, by norm_num [peakZ, peakBy], rfl, by decide,
    by norm_num [peakZ, peakBy], by norm_num, by norm_num,
    fun x => by norm_num,
    c10_always_full_scale (1/2) 200 1 ⟨1, 10, [4, 0, 8, 0]⟩ (fun _ => 0) 14 (7/10)
      ⟨2, 44100, [3, 4]⟩ (by decide) (by decide) (by norm_num [peakZ, peakBy]) rfl
      (by decide) (by norm_num [peakZ, peakBy]) (by norm_num) (by norm_num)
      (fun x => by norm_num)⟩

/-! ## C9 machinery: uniform gain and the resulting peak -/

theorem peakZ_map_gain (l : List ℤ) (g : ℚ) (hg : 0 ≤ g) (hp : peakZ l ≠ 0) :
    peakZ (l.map (fun (s : ℤ) => itrunc ((s : ℚ) * g))) =
      ((itrunc (peakZ l * g) : ℤ) : ℚ) := by
  have hpk0 : 0 ≤ peakZ l := peakBy_nonneg _ l
  have habs : ∀ s : ℤ, |itrunc ((s : ℚ) * g)| = itrunc (|(s : ℚ)| * g) := by
    intro s
    rw [abs_itrunc, abs_mul, abs_of_nonneg hg]
  rw [peakZ, peakBy_map]
  apply le_antisymm
  · apply peakBy_le
    · have h0 : (0 : ℤ) ≤ itrunc (peakZ l * g) := by
        rw [itrunc_of_nonneg (mul_nonneg hpk0 hg)]
        exact Int.floor_nonneg.mpr (mul_nonneg hpk0 hg)
      exact_mod_cast h0
    · intro s hs
      show |((itrunc ((s : ℚ) * g) : ℤ) : ℚ)| ≤ ((itrunc (peakZ l * g) : ℤ) : ℚ)
      have hsle : |(s : ℚ)| ≤ peakZ l := le_peakBy (fun (s : ℤ) => |(s : ℚ)|) hs
      have h2 : itrunc (|(s : ℚ)| * g) ≤ itrunc (peakZ l * g) :=
        itrunc_mono (mul_nonneg (abs_nonneg _) hg) (mul_le_mul_of_nonneg_right hsle hg)
      calc |((itrunc ((s : ℚ) * g) : ℤ) : ℚ)|
          = ((|itrunc ((s : ℚ) * g)| : ℤ) : ℚ) := Int.cast_abs.symm
        _ = ((itrunc (|(s : ℚ)| * g) : ℤ) : ℚ) := by rw [habs s]
        _ ≤ ((itrunc (peakZ l * g) : ℤ) : ℚ) := by exact_mod_cast h2
  · rw [peakZ] at hp
    rcases exists_eq_peakBy _ hp with ⟨s, hs, hfs⟩
    have hval : |itrunc ((s : ℚ) * g)| = itrunc (peakZ l * g) := by
      rw [habs s, hfs]
      rfl
    have hle := le_peakBy (fun (x : ℤ) => |((itrunc ((x : ℚ) * g) : ℤ) : ℚ)|) hs
    refine le_trans (le_of_eq ?_) hle
    show ((itrunc (peakZ l * g) : ℤ) : ℚ) = |((itrunc ((s : ℚ) * g) : ℤ) : ℚ)|
    rw [← hval, Int.cast_abs]

/-- **C9.** For a non-silent mono 44100 Hz buffer, Normalize with target
`-1.0` dBFS applies one uniform multiplicative gain
`10^((target - currentPeakDBFS)/20) = amp(-1) · 32768 / peak` to every sample
(truncated to the 16-bit store), keeps the sample count and the sample rate
unchanged, and the output peak `P` lands within `0.1` dB of `-1.0` dBFS.
The dB bound is stated exactly in rational arithmetic:
`-1.1 ≤ 20·log10 (P / 32768) ≤ -0.9` is equivalent (by monotonicity of
`x ↦ x^200` on nonnegative reals) to
`32768^200 ≤ P^200 · 10^11` and `P^200 · 10^9 ≤ 32768^200`.
`amp` stands for the float computation of `t ↦ 10^(t/20)`; the hypotheses pin
`amp (-1)` inside `[0.8912, 0.8913]`, a correct enclosure of
`10^(-1/20) = 0.891250938…`. -/
theorem c9_normalize_scenario (amp : ℚ → ℚ) (a : AudioSeg)
    (_hch : a.channels = 1) (_hrate : a.frameRate = 44100)
    (hsil : peakZ a.samples ≠ 0)
    (hamp1 : 8912/10000 ≤ amp (-1)) (hamp2 : amp (-1) ≤ 8913/10000) :
    normalize_audio amp (-1) a =
      .ok ⟨a.channels, a.frameRate,
        a.samples.map (fun (s : ℤ) =>
          itrunc ((s : ℚ) * (amp (-1) * 32768 / peakZ a.samples)))⟩ ∧
    (a.samples.map (fun (s : ℤ) =>
        itrunc ((s : ℚ) * (amp (-1) * 32768 / peakZ a.samples)))).length =
      a.samples.length ∧
    (32768 : ℚ) ^ 200 ≤
      peakZ (a.samples.map (fun (s : ℤ) =>
        itrunc ((s : ℚ) * (amp (-1) * 32768 / peakZ a.samples)))) ^ 200 * 10 ^ 11 ∧
    peakZ (a.samples.map (fun (s : ℤ) =>
        itrunc ((s : ℚ) * (amp (-1) * 32768 / peakZ a.samples)))) ^ 200 * 10 ^ 9 ≤
      (32768 : ℚ) ^ 200 := by
  have hampnn : 0 ≤ amp (-1) := le_trans (by norm_num) hamp1
  have hpk0 : 0 ≤ peakZ a.samples := peakBy_nonneg _ _
  have hpkpos : 0 < peakZ a.samples := lt_of_le_of_ne hpk0 (Ne.symm hsil)
  have hg : 0 ≤ amp (-1) * 32768 / peakZ a.samples := by positivity
  have heq1 : normalize_audio amp (-1) a =
      .ok ⟨a.channels, a.frameRate,
        a.samples.map (fun (s : ℤ) =>
          itrunc ((s : ℚ) * (amp (-1) * 32768 / peakZ a.samples)))⟩ := by
    simp only [normalize_audio]
    rw [if_neg hsil]
  have hPeq := peakZ_map_gain a.samples (amp (-1) * 32768 / peakZ a.samples) hg hsil
  have hsimp : peakZ a.samples * (amp (-1) * 32768 / peakZ a.samples) =
      amp (-1) * 32768 := by
    field_simp
  rw [hsimp] at hPeq
  have hx1 : (292028416/10000 : ℚ) ≤ amp (-1) * 32768 := by
    have := mul_le_mul_of_nonneg_right hamp1 (show (0:ℚ) ≤ 32768 by norm_num)
    linarith
  have hx2 : amp (-1) * 32768 ≤ (292061184/10000 : ℚ) := by
    have := mul_le_mul_of_nonneg_right hamp2 (show (0:ℚ) ≤ 32768 by norm_num)
    linarith
  have hit1 : (29202 : ℤ) ≤ itrunc (amp (-1) * 32768) := by
    rw [itrunc_of_nonneg (by positivity)]
    apply Int.le_floor.mpr
    push_cast
    linarith
  have hit2 : itrunc (amp (-1) * 32768) ≤ 29206 := by
    rw [itrunc_of_nonneg (by positivity)]
    have hfl := Int.floor_le (amp (-1) * 32768)
    have hlt : (⌊amp (-1) * 32768⌋ : ℚ) < 29207 := lt_of_le_of_lt hfl (by linarith)
    have hlt2 : ⌊amp (-1) * 32768⌋ < (29207 : ℤ) := by exact_mod_cast hlt
    omega
  have hq1 : (29202 : ℚ) ≤ peakZ (a.samples.map (fun (s : ℤ) =>
      itrunc ((s : ℚ) * (amp (-1) * 32768 / peakZ a.samples)))) := by
    rw [hPeq]
    exact_mod_cast hit1
  have hq2 : peakZ (a.samples.map (fun (s : ℤ) =>
      itrunc ((s : ℚ) * (amp (-1) * 32768 / peakZ a.samples)))) ≤ 29206 := by
    rw [hPeq]
    exact_mod_cast hit2
  refine ⟨heq1, List.length_map _ _, ?_, ?_⟩
  · calc (32768 : ℚ) ^ 200 ≤ (29202 : ℚ) ^ 200 * 10 ^ 11 := by norm_num
      _ ≤ peakZ (a.samples.map (fun (s : ℤ) =>
            itrunc ((s : ℚ) * (amp (-1) * 32768 / peakZ a.samples)))) ^ 200 * 10 ^ 11 := by
          have hple := pow_le_pow_left₀ (show (0:ℚ) ≤ 29202 by norm_num) hq1 200
          exact mul_le_mul_of_nonneg_right hple (by positivity)
  · calc peakZ (a.samples.map (fun (s : ℤ) =>
            itrunc ((s : ℚ) * (amp (-1) * 32768 / peakZ a.samples)))) ^ 200 * 10 ^ 9
        ≤ (29206 : ℚ) ^ 200 * 10 ^ 9 := by
          have hple := pow_le_pow_left₀
            (le_trans (show (0:ℚ) ≤ 29202 by norm_num) hq1) hq2 200
          exact mul_le_mul_of_nonneg_right hple (by positivity)
      _ ≤ (32768 : ℚ) ^ 200 := by norm_num

/-- Witness for `c9_normalize_scenario` at a concrete mono buffer and a
concrete rational standing in for the float value of `10^(-1/20)`. -/
theorem c9_normalize_scenario_witness :
    ((⟨1, 44100, [1000, -200]⟩ : AudioSeg).channels = 1) ∧
    ((⟨1, 44100, [1000, -200]⟩ : AudioSeg).frameRate = 44100) ∧
    (peakZ (⟨1, 44100, [1000, -200]⟩ : AudioSeg).samples ≠ 0) ∧
    ((8912/10000 : ℚ) ≤ (fun (_ : ℚ) => (89125/100000 : ℚ)) (-1)) ∧
    ((fun (_ : ℚ) => (89125/100000 : ℚ)) (-1) ≤ 8913/10000) ∧
    (normalize_audio (fun _ => 89125/100000) (-1) ⟨1, 44100, [1000, -200]⟩ =
      .ok ⟨(⟨1, 44100, [1000, -200]⟩ : AudioSeg).channels,
        (⟨1, 44100, [1000, -200]⟩ : AudioSeg).frameRate,
        (⟨1, 44100, [1000, -200]⟩ : AudioSeg).samples.map (fun (s : ℤ) =>
          itrunc ((s : ℚ) * ((fun (_ : ℚ) => (89125/100000 : ℚ)) (-1) * 32768 /
            peakZ (⟨1, 44100, [1000, -200]⟩ : AudioSeg).samples)))⟩ ∧
    ((⟨1, 44100, [1000, -200]⟩ : AudioSeg).samples.map (fun (s : ℤ) =>
        itrunc ((s : ℚ) * ((fun (_ : ℚ) => (89125/100000 : ℚ)) (-1) * 32768 /
          peakZ (⟨1, 44100, [1000, -200]⟩ : AudioSeg).samples)))).length =
      (⟨1, 44100, [1000, -200]⟩ : AudioSeg).samples.length ∧
    (32768 : ℚ) ^ 200 ≤
      peakZ ((⟨1, 44100, [1000, -200]⟩ : AudioSeg).samples.map (fun (s : ℤ) =>
        itrunc ((s : ℚ) * ((fun (_ : ℚ) => (89125/100000 : ℚ)) (-1) * 32768 /
          peakZ (⟨1, 44100, [1000, -200]⟩ : AudioSeg).samples)))) ^ 200 * 10 ^ 11 ∧
    peakZ ((⟨1, 44100, [1000, -200]⟩ : AudioSeg).samples.map (fun (s : ℤ) =>
        itrunc ((s : ℚ) * ((fun (_ : ℚ) => (89125/100000 : ℚ)) (-1) * 32768 /
          peakZ (⟨1, 44100, [1000, -200]⟩ : AudioSeg).samples)))) ^ 200 * 10 ^ 9 ≤
      (32768 : ℚ) ^ 200) :=
  ⟨rfl, rfl, by norm_num [peakZ, peakBy], by norm_num, by norm_num,
    c9_normalize_scenario (fun _ => 89125/100000) ⟨1, 44100, [1000, -200]⟩ rfl rfl
      (by norm_num [peakZ, peakBy]) (by norm_num) (by norm_num)⟩
